import Mathlib

/-!
Verification of the trace ingestion and metrics-aggregation engine of
`scripts/analyze_build_times.py`.

The engine's core is three functions:

* `parse_trace_file` — decodes one ftime-trace JSON document into a mapping
  from header path to a best duration in milliseconds (two passes: Complete
  events with a `dur` field, and begin/end pairs matched on a per-thread
  stack);
* `analyze_parse_times` — walks the trace files, filters decoded
  observations by substring against the requested header patterns, and
  accumulates per-header duration lists;
* the statistics reduction inside `analyze_parse_times` — total, average,
  max, sample standard deviation (n−1 divisor), count.

Python dictionaries are modelled as association lists with in-place update
semantics (first occurrence updated, new keys appended at the end), which
matches insertion-ordered `dict` / `defaultdict`.  Python floats are
modelled exactly in `ℚ`; every duration arising here is an integer number of
microseconds divided by 1000, which is exact in binary floating point as
well, and `math.sqrt` is modelled by `Real.sqrt` applied where the code
applies it.  A trace file whose content does not parse as JSON is modelled
as `none : Option TraceDoc`; the `json.JSONDecodeError` that `json.load`
raises is modelled by the `Except` error branch.
-/

/-- One record of the `traceEvents` array.  Fields the code reads with
`ev.get(...)` are `Option`-valued; `aid` models the `id` field used by the
Chrome trace format for asynchronous events (the script never reads it, but
the format carries it). `args_file` and `args_detail` model
`ev["args"]["file"]` and `ev["args"]["detail"]`; a missing `args` mapping is
both fields `none`. -/
structure TraceEvent where
  ph : Option String
  name : Option String
  ts : Option Int
  dur : Option Int
  tid : Option Int
  aid : Option Int
  args_file : Option String
  args_detail : Option String
deriving Repr, DecidableEq

/-- The deserialized content of one trace file: `data.get("traceEvents", [])`
is the event list, with a missing key modelled as the empty list. -/
structure TraceDoc where
  traceEvents : List TraceEvent
deriving Repr, DecidableEq

/-- Helper for events: positional constructor
(ph, name, ts, dur, tid, aid, args_file, args_detail). -/
def mkEv (ph name : Option String) (ts dur tid aid : Option Int)
    (file detail : Option String) : TraceEvent :=
  ⟨ph, name, ts, dur, tid, aid, file, detail⟩

/-- Python truthiness for an optional string: `None` and `""` are falsy. -/
def truthy : Option String → Option String
  | some s => if s = "" then none else some s
  | none => none

/-- Subject resolution `args.get("file") or args.get("detail")`, followed by the
`if not header_path: continue` guard: the newer key wins when truthy,
otherwise the older key, otherwise no subject. -/
def resolveSubject (ev : TraceEvent) : Option String :=
  match truthy ev.args_file with
  | some s => some s
  | none => truthy ev.args_detail

/-- The `PARSE_EVENT_NAMES` constant from the script. -/
def PARSE_EVENT_NAMES : List String :=
  ["ParseFile", "ParseClass", "ParseTemplate", "InstantiateFunction", "InstantiateClass"]

/-- Membership test `ph in PH_BEGIN` with `PH_BEGIN = {"B", "b"}` (`ph` may be absent). -/
def isBeginPh (ph : Option String) : Bool :=
  (ph == some "B") || (ph == some "b")

/-- Membership test `ph in PH_END` with `PH_END = {"E", "e"}` (`ph` may be absent). -/
def isEndPh (ph : Option String) : Bool :=
  (ph == some "E") || (ph == some "e")

/-- Python's binary `max(a, b)` on numbers (returns the first argument on
ties, which is indistinguishable for numbers). -/
def pymax (a b : ℚ) : ℚ :=
  if a < b then b else a

/-- Dictionary read with default: `m.get(k, d)` on an association list. -/
def lookupD (m : List (String × ℚ)) (k : String) (d : ℚ) : ℚ :=
  match m with
  | [] => d
  | p :: rest => if p.1 = k then p.2 else lookupD rest k d

/-- Dictionary write: `m[k] = v`.  Updates the first entry with key `k` in
place, or appends a new entry — insertion-ordered `dict` semantics. -/
def setKey (m : List (String × ℚ)) (k : String) (v : ℚ) : List (String × ℚ) :=
  match m with
  | [] => [(k, v)]
  | p :: rest => if p.1 = k then (k, v) :: rest else p :: setKey rest k v

/-- First pass of `parse_trace_file` (one event): Complete events
(`ph == 'X'`, case-sensitive in the code), name filter `Source` or one of
`PARSE_EVENT_NAMES`, subject resolution, then
`header_times[h] = max(header_times.get(h, 0.0), dur/1000)` with
`dur = ev.get("dur", 0)`. -/
def completeStep (m : List (String × ℚ)) (ev : TraceEvent) : List (String × ℚ) :=
  if ev.ph ≠ some "X" then m
  else if ev.name.getD "" ≠ "Source" ∧ ev.name.getD "" ∉ PARSE_EVENT_NAMES then m
  else
    match resolveSubject ev with
    | none => m
    | some header_path =>
        setKey m header_path
          (pymax (lookupD m header_path 0) (((ev.dur.getD 0 : Int) : ℚ) / 1000))

/-- Reading `open_events[tid]` on the `defaultdict(list)`: missing key reads as `[]`.
The per-thread stack keeps its most recent entry first (Python appends and
pops at the other end; both are the same last-in-first-out discipline). -/
def getStack (o : List (Int × List (String × Int))) (t : Int) : List (String × Int) :=
  match o with
  | [] => []
  | p :: rest => if p.1 = t then p.2 else getStack rest t

/-- Replace the stack stored for thread `t` (insertion-ordered dict write). -/
def setStack (o : List (Int × List (String × Int))) (t : Int) (s : List (String × Int)) :
    List (Int × List (String × Int)) :=
  match o with
  | [] => [(t, s)]
  | p :: rest => if p.1 = t then (t, s) :: rest else p :: setStack rest t s

/-- State of the second pass: `open_events` and the accumulated
`header_times` (the first pass's result is the initial `times`). -/
structure PassTwoState where
  open_events : List (Int × List (String × Int))
  times : List (String × ℚ)
deriving Repr, DecidableEq

/-- Second pass of `parse_trace_file` (one event): begin/end pairing keyed by
`tid = ev.get("tid", 0)`.  A begin event pushes `(subject, ts)` on its
thread's stack (skipped when no subject resolves); an end event pops its
thread's stack when non-empty and records
`max(existing, (end_ts - start_ts)/1000)`; an end event on an empty stack is
a no-op. -/
def beginEndStep (st : PassTwoState) (ev : TraceEvent) : PassTwoState :=
  if isBeginPh ev.ph || isEndPh ev.ph then
    if ev.name.getD "" = "Source" then
      if isBeginPh ev.ph then
        match resolveSubject ev with
        | none => st
        | some header_path =>
            ⟨setStack st.open_events (ev.tid.getD 0)
              ((header_path, ev.ts.getD 0) :: getStack st.open_events (ev.tid.getD 0)),
              st.times⟩
      else
        match getStack st.open_events (ev.tid.getD 0) with
        | [] => st
        | (header_path, start_ts) :: rest =>
            ⟨setStack st.open_events (ev.tid.getD 0) rest,
              setKey st.times header_path
                (pymax (lookupD st.times header_path 0)
                  ((((ev.ts.getD 0 : Int) : ℚ) - ((start_ts : Int) : ℚ)) / 1000))⟩
    else st
  else st

/-- Body of `parse_trace_file` after `json.load`: the Complete-event pass
followed by the begin/end pass; the leftover `open_events` stacks are
discarded and only `header_times` is returned. -/
def decode_trace (data : TraceDoc) : List (String × ℚ) :=
  let header_times := data.traceEvents.foldl completeStep []
  let final := data.traceEvents.foldl beginEndStep ⟨[], header_times⟩
  final.times

/-- Model of `parse_trace_file`: `json.load` raises `json.JSONDecodeError` on
malformed content (modelled as `none`); otherwise the two decoding passes
run on the document. -/
def parse_trace_file (content : Option TraceDoc) : Except String (List (String × ℚ)) :=
  match content with
  | none => Except.error "json.JSONDecodeError"
  | some data => Except.ok (decode_trace data)

/-- Test whether `pat` occurs at the head of `s` (character-list form of Python
`s.startswith(pat)`). -/
def leadsWith : List Char → List Char → Bool
  | [], _ => true
  | _ :: _, [] => false
  | p :: ps, c :: cs => decide (p = c) && leadsWith ps cs

/-- Test whether `pat` occurs somewhere inside `s` (character-list form). -/
def occursIn (pat : List Char) : List Char → Bool
  | [] => leadsWith pat []
  | c :: cs => leadsWith pat (c :: cs) || occursIn pat cs

/-- Python's substring test `pat in s`. -/
def substrOf (pat s : String) : Bool :=
  occursIn pat.toList s.toList

/-- Appending via `durations[header].append(dur)` on the `defaultdict(list)`: append to the
list stored at the first entry with this key, or append a fresh singleton
entry at the end. -/
def appendDur (m : List (String × List ℚ)) (k : String) (v : ℚ) : List (String × List ℚ) :=
  match m with
  | [] => [(k, [v])]
  | p :: rest => if p.1 = k then (p.1, p.2 ++ [v]) :: rest else p :: appendDur rest k v

/-- One observation step of the aggregation loop:
`if any(pattern in header for pattern in headers): durations[header].append(dur)`. -/
def aggStep (headers : List String) (durs : List (String × List ℚ)) (hd : String × ℚ) :
    List (String × List ℚ) :=
  if headers.any (fun pattern => substrOf pattern hd.1) then appendDur durs hd.1 hd.2
  else durs

/-- Python's `max(times)` for the non-empty lists the code applies it to. -/
def maxOfList : List ℚ → ℚ
  | [] => 0
  | x :: xs => xs.foldl pymax x

/-- The per-header statistics record built by `analyze_parse_times`.
`std_dev_sq` holds the sample variance; the code stores
`math.sqrt` of it (and the literal `0.0` when `len(times) <= 1`, which
equals `sqrt 0`), so the code's `std_dev` is `Real.sqrt std_dev_sq`. -/
structure HeaderMetrics where
  total_time : ℚ
  avg_time : ℚ
  max_time : ℚ
  std_dev_sq : ℚ
  parse_count : ℕ
deriving Repr, DecidableEq

/-- The statistics reduction of `analyze_parse_times` for one duration list:
total, average, max, sample variance with the `len(times) - 1` divisor when
`len(times) > 1` (else 0), and count. -/
def metricsOf (times : List ℚ) : HeaderMetrics :=
  let total_time := times.sum
  let avg_time := total_time / (times.length : ℚ)
  let max_time := maxOfList times
  let std_dev_sq :=
    if 1 < times.length then
      (times.map (fun x => (x - avg_time) ^ 2)).sum / ((times.length : ℚ) - 1)
    else 0
  ⟨total_time, avg_time, max_time, std_dev_sq, times.length⟩

/-- Model of `analyze_parse_times`: decode each trace file (an exception from
`parse_trace_file` propagates and aborts the whole run — the `Except` bind),
filter each observation by substring against the requested headers,
accumulate per-header duration lists, then reduce every non-empty list to
its statistics. -/
def analyze_parse_times (headers : List String) (files : List (Option TraceDoc)) :
    Except String (List (String × HeaderMetrics)) := do
  let durations ← files.foldlM
    (fun durs content => do
      let per_file ← parse_trace_file content
      pure (per_file.foldl (aggStep headers) durs))
    []
  pure (durations.foldl
    (fun acc p => if p.2.isEmpty then acc else acc ++ [(p.1, metricsOf p.2)]) [])

/-- Read the duration list stored for key `k` (empty when absent), for
stating properties of the aggregation dictionary. -/
def lookupDurs (m : List (String × List ℚ)) (k : String) : List ℚ :=
  match m with
  | [] => []
  | p :: rest => if p.1 = k then p.2 else lookupDurs rest k

/-- All recorded durations in a `header_times` mapping are non-negative. -/
def nonnegVals (m : List (String × ℚ)) : Prop :=
  ∀ p ∈ m, 0 ≤ p.2

/-- A well-formed trace document: one Complete `Source` event for
`inc/a.h` with `dur = 2000` µs. -/
def docA : TraceDoc :=
  ⟨[mkEv (some "X") (some "Source") (some 0) (some 2000) (some 0) none (some "inc/a.h") none]⟩

/-- A well-formed trace document: one Complete `Source` event for
`inc/a.h` with `dur = 4000` µs. -/
def docB : TraceDoc :=
  ⟨[mkEv (some "X") (some "Source") (some 0) (some 4000) (some 0) none (some "inc/a.h") none]⟩

theorem le_pymax_left (a b : ℚ) : a ≤ pymax a b := by
  unfold pymax
  split
  · exact le_of_lt (by assumption)
  · exact le_refl a

theorem pymax_eq_max (a b : ℚ) : pymax a b = max a b := by
  unfold pymax
  rcases lt_or_le a b with h | h
  · rw [if_pos h, max_eq_right h.le]
  · rw [if_neg (not_lt.mpr h), max_eq_left h]

theorem lookupD_nonneg : ∀ (m : List (String × ℚ)) (k : String),
    nonnegVals m → 0 ≤ lookupD m k 0
  | [], _, _ => le_refl 0
  | p :: rest, k, hm => by
    simp only [lookupD]
    split
    · exact hm p (List.mem_cons_self p rest)
    · exact lookupD_nonneg rest k (fun q hq => hm q (List.mem_cons_of_mem p hq))

theorem mem_setKey : ∀ {m : List (String × ℚ)} {k : String} {v : ℚ} {p : String × ℚ},
    p ∈ setKey m k v → p = (k, v) ∨ p ∈ m := by
  intro m
  induction m with
  | nil =>
    intro k v p hp
    simp only [setKey, List.mem_singleton] at hp
    exact Or.inl hp
  | cons q rest ih =>
    intro k v p hp
    simp only [setKey] at hp
    by_cases hq : q.1 = k
    · rw [if_pos hq] at hp
      rcases List.mem_cons.mp hp with h | h
      · exact Or.inl h
      · exact Or.inr (List.mem_cons_of_mem q h)
    · rw [if_neg hq] at hp
      rcases List.mem_cons.mp hp with h | h
      · exact Or.inr (h ▸ List.mem_cons_self q rest)
      · rcases ih h with h1 | h1
        · exact Or.inl h1
        · exact Or.inr (List.mem_cons_of_mem q h1)

theorem completeStep_nonneg (m : List (String × ℚ)) (ev : TraceEvent)
    (hm : nonnegVals m) : nonnegVals (completeStep m ev) := by
  unfold completeStep
  split
  · exact hm
  · split
    · exact hm
    · split
      · exact hm
      · intro p hp
        rcases mem_setKey hp with h | h
        · rw [h]
          exact le_trans (lookupD_nonneg m _ hm) (le_pymax_left _ _)
        · exact hm p h

theorem beginEndStep_nonneg (st : PassTwoState) (ev : TraceEvent)
    (hm : nonnegVals st.times) : nonnegVals (beginEndStep st ev).times := by
  unfold beginEndStep
  split
  · split
    · split
      · split
        · exact hm
        · exact hm
      · split
        · exact hm
        · intro p hp
          rcases mem_setKey hp with h | h
          · rw [h]
            exact le_trans (lookupD_nonneg st.times _ hm) (le_pymax_left _ _)
          · exact hm p h
    · exact hm
  · exact hm

theorem foldl_preserves {α β : Type} (P : α → Prop) (f : α → β → α)
    (hf : ∀ s b, P s → P (f s b)) (l : List β) :
    ∀ init : α, P init → P (l.foldl f init) := by
  induction l with
  | nil => intro init h; exact h
  | cons b t ih => intro init h; exact ih (f init b) (hf init b h)

/-- Claim C10: every value in the decoder's output mapping is non-negative —
each recorded value is the `max` of the new millisecond duration and the
existing value with default `0.0`, so a Complete event with a missing `dur`
(read as 0) or a begin/end pair whose end timestamp precedes its begin
timestamp never yields a negative recorded duration for any subject. -/
theorem C10_decoder_values_nonneg (data : TraceDoc) (p : String × ℚ)
    (hp : p ∈ decode_trace data) : 0 ≤ p.2 := by
  have h1 : nonnegVals (data.traceEvents.foldl completeStep []) :=
    foldl_preserves nonnegVals completeStep
      (fun s b hs => completeStep_nonneg s b hs) data.traceEvents []
      (by intro q hq; simp at hq)
  have h2 : nonnegVals
      (data.traceEvents.foldl beginEndStep
        ⟨[], data.traceEvents.foldl completeStep []⟩).times :=
    foldl_preserves (fun st => nonnegVals st.times) beginEndStep
      (fun s b hs => beginEndStep_nonneg s b hs) data.traceEvents _ h1
  exact h2 p hp

/-- Witness for C10 at a concrete document and output entry. -/
theorem C10_decoder_values_nonneg_witness :
    ("inc/a.h", (2 : ℚ)) ∈ decode_trace docA ∧ (0 : ℚ) ≤ 2 :=
  ⟨by with_unfolding_all decide,
    C10_decoder_values_nonneg docA ("inc/a.h", 2) (by with_unfolding_all decide)⟩

theorem completeStep_skip (m : List (String × ℚ)) (ev : TraceEvent)
    (h : ev.ph ≠ some "X") : completeStep m ev = m := by
  unfold completeStep
  rw [if_pos h]

theorem beginPh_ne_X (ev : TraceEvent) (hb : isBeginPh ev.ph = true) :
    ev.ph ≠ some "X" := by
  intro hX
  rw [hX] at hb
  exact absurd hb (by decide)

theorem endPh_not_beginPh (ph : Option String) (h : isEndPh ph = true) :
    isBeginPh ph = false := by
  have h2 : ph = some "E" ∨ ph = some "e" := by
    simpa [isEndPh] using h
  rcases h2 with h2 | h2 <;> rw [h2] <;> decide

theorem beginEndStep_begin_no_subject (st : PassTwoState) (ev : TraceEvent)
    (hb : isBeginPh ev.ph = true) (hr : resolveSubject ev = none) :
    beginEndStep st ev = st := by
  simp [beginEndStep, hb, hr]

theorem beginEndStep_begin_times (st : PassTwoState) (ev : TraceEvent)
    (hb : isBeginPh ev.ph = true) : (beginEndStep st ev).times = st.times := by
  unfold beginEndStep
  rw [hb]
  simp only [Bool.true_or, if_true]
  split
  · split
    · rfl
    · rfl
  · rfl

/-- Claim C9: a `Source` begin event with no resolvable subject identifier is
not pushed onto the per-thread stack, so it is a no-op for the whole decode;
consequently a later end event on the same thread pairs with the most recent
earlier begin that did have a subject, attributing the interval from that
earlier begin's timestamp to the end's timestamp to the earlier subject
(concretely: begin `a.h` at ts=100, a subjectless begin at ts=300, and an end
at ts=500, all on thread 0, yield 0.4 ms for `a.h` instead of a discarded end
event). -/
theorem C9_subjectless_begin_noop (pre post : List TraceEvent) (b : TraceEvent)
    (hb : isBeginPh b.ph = true) (hr : resolveSubject b = none) :
    decode_trace ⟨pre ++ b :: post⟩ = decode_trace ⟨pre ++ post⟩ ∧
    decode_trace ⟨[mkEv (some "B") (some "Source") (some 100) none (some 0) none
        (some "a.h") none,
      mkEv (some "B") (some "Source") (some 300) none (some 0) none none none,
      mkEv (some "E") (some "Source") (some 500) none (some 0) none none none]⟩ =
      [("a.h", 2/5)] := by
  constructor
  · unfold decode_trace
    have e1 : (pre ++ b :: post).foldl completeStep [] =
        (pre ++ post).foldl completeStep [] := by
      rw [List.foldl_append, List.foldl_append, List.foldl_cons,
        completeStep_skip _ _ (beginPh_ne_X b hb)]
    have e2 : ∀ init : PassTwoState, (pre ++ b :: post).foldl beginEndStep init =
        (pre ++ post).foldl beginEndStep init := by
      intro init
      rw [List.foldl_append, List.foldl_append, List.foldl_cons,
        beginEndStep_begin_no_subject _ _ hb hr]
    simp only [e1, e2]
  · with_unfolding_all decide

/-- Witness for C9 at a concrete subjectless begin event. -/
theorem C9_subjectless_begin_noop_witness :
    decode_trace ⟨[mkEv (some "B") (some "Source") (some 7) none (some 0) none
        (some "x.h") none] ++
      mkEv (some "b") (some "Source") (some 9) none (some 0) none none none ::
      [mkEv (some "E") (some "Source") (some 11) none (some 0) none none none]⟩ =
    decode_trace ⟨[mkEv (some "B") (some "Source") (some 7) none (some 0) none
        (some "x.h") none] ++
      [mkEv (some "E") (some "Source") (some 11) none (some 0) none none none]⟩ :=
  (C9_subjectless_begin_noop
    [mkEv (some "B") (some "Source") (some 7) none (some 0) none (some "x.h") none]
    [mkEv (some "E") (some "Source") (some 11) none (some 0) none none none]
    (mkEv (some "b") (some "Source") (some 9) none (some 0) none none none)
    (by decide) (by decide)).1

/-- Claim C8: an end event whose per-thread open-event stack is empty is
discarded — the decoder state is unchanged and no observation is produced —
and a begin event never adds to the output mapping by itself (an unmatched
begin at end-of-document therefore produces no observation, since only
`times` is returned). -/
theorem C8_unbalanced_pairs (st : PassTwoState) (e b : TraceEvent)
    (he : isEndPh e.ph = true)
    (hstack : getStack st.open_events (e.tid.getD 0) = [])
    (hb : isBeginPh b.ph = true) :
    beginEndStep st e = st ∧ (beginEndStep st b).times = st.times := by
  constructor
  · simp [beginEndStep, he, endPh_not_beginPh e.ph he, hstack]
  · exact beginEndStep_begin_times st b hb

/-- Witness for C8 at a concrete state and concrete end/begin events. -/
theorem C8_unbalanced_pairs_witness :
    beginEndStep ⟨[], []⟩
        (mkEv (some "e") (some "Source") (some 9) none (some 3) none none none) =
      (⟨[], []⟩ : PassTwoState) ∧
    (beginEndStep ⟨[], []⟩
        (mkEv (some "b") (some "Source") (some 1) none (some 3) (some 5)
          (some "a.h") none)).times =
      (⟨[], []⟩ : PassTwoState).times :=
  C8_unbalanced_pairs ⟨[], []⟩
    (mkEv (some "e") (some "Source") (some 9) none (some 3) none none none)
    (mkEv (some "b") (some "Source") (some 1) none (some 3) (some 5) (some "a.h") none)
    (by decide) (by decide) (by decide)

/-- Claim C1 (code bug): the aggregation loop has no per-file error handling —
`parse_trace_file`'s decode error on a malformed trace file propagates out of
`analyze_parse_times` and aborts the whole run, with no count of failed files
surfaced; the claim's required behavior (skip the file, continue, report a
failure count) does not happen.  The second conjunct shows the same
well-formed files alone aggregate to completion, so it is exactly the
malformed file that kills the run. -/
theorem C1_malformed_trace_aborts_run :
    analyze_parse_times ["inc/a.h"] [some docA, none, some docB] =
      Except.error "json.JSONDecodeError" ∧
    analyze_parse_times ["inc/a.h"] [some docA, some docB] =
      Except.ok [("inc/a.h", ⟨6, 3, 4, 2, 2⟩)] := by
  refine ⟨?_, ?_⟩ <;> with_unfolding_all rfl

/-- Counterexample to claim C2: an async begin (`ph = "b"`) on thread 1 and
its end (`ph = "e"`) on thread 2 carrying the same async-id 7 produce no
observation at all — the decoder keys by thread-id, finds thread 2's stack
empty, and discards the end event; the claim's promised duration
`end.ts − begin.ts` for `a.h` never appears.  The second conjunct shows the
same pair on one thread but with different async-ids does pair, confirming
the async-id is ignored. -/
theorem C2_async_pairing_counterexample :
    decode_trace ⟨[mkEv (some "b") (some "Source") (some 100) none (some 1) (some 7)
        (some "a.h") none,
      mkEv (some "e") (some "Source") (some 300) none (some 2) (some 7) none none]⟩ =
      [] ∧
    decode_trace ⟨[mkEv (some "b") (some "Source") (some 100) none (some 1) (some 7)
        (some "a.h") none,
      mkEv (some "e") (some "Source") (some 300) none (some 1) (some 9) none none]⟩ =
      [("a.h", 1/5)] := by
  refine ⟨?_, ?_⟩ <;> with_unfolding_all decide

/-- Claim C2 as amended: the decoder pairs lowercase (async-style) begin/end
events by thread-id exactly as it does synchronous ones — the async-id fields
`a1`, `a2` are arbitrary and irrelevant; the pair produces
`(end.ts − begin.ts)/1000` for the begin's subject when the two events share
a thread-id, and nothing when they do not. -/
theorem C2_pairing_keyed_by_thread_id (s : String) (t1 t2 ts1 ts2 a1 a2 : Int)
    (hs : s ≠ "") (hts : ts1 ≤ ts2) :
    decode_trace ⟨[mkEv (some "b") (some "Source") (some ts1) none (some t1) (some a1)
        (some s) none,
      mkEv (some "e") (some "Source") (some ts2) none (some t2) (some a2) none none]⟩ =
      if t1 = t2 then [(s, (((ts2 : Int) : ℚ) - ((ts1 : Int) : ℚ)) / 1000)] else [] := by
  have h0 : (0 : ℚ) ≤ (((ts2 : Int) : ℚ) - ((ts1 : Int) : ℚ)) / 1000 := by
    have h1 : ((ts1 : Int) : ℚ) ≤ ((ts2 : Int) : ℚ) := by exact_mod_cast hts
    have h2 : (0 : ℚ) ≤ ((ts2 : Int) : ℚ) - ((ts1 : Int) : ℚ) := by linarith
    positivity
  by_cases h : t1 = t2
  · subst h
    simp [decode_trace, completeStep, beginEndStep, resolveSubject, truthy, isBeginPh,
      isEndPh, mkEv, setKey, lookupD, getStack, setStack, hs, pymax_eq_max]
    exact h0
  · simp [decode_trace, completeStep, beginEndStep, resolveSubject, truthy, isBeginPh,
      isEndPh, mkEv, setKey, lookupD, getStack, setStack, hs, h, pymax_eq_max]

/-- Witness for the amended C2 at concrete thread-ids (1 ≠ 2) and
timestamps. -/
theorem C2_pairing_keyed_by_thread_id_witness :
    decode_trace ⟨[mkEv (some "b") (some "Source") (some 100) none (some 1) (some 7)
        (some "w.h") none,
      mkEv (some "e") (some "Source") (some 300) none (some 2) (some 8) none none]⟩ =
      if (1 : Int) = 2 then
        [("w.h", (((300 : Int) : ℚ) - ((100 : Int) : ℚ)) / 1000)]
      else [] :=
  C2_pairing_keyed_by_thread_id "w.h" 1 2 100 300 7 8 (by decide) (by decide)

/-- Counterexample to claim C3: a Complete event written with the lowercase
phase letter `x` and name `Source` is skipped entirely, while the identical
event with uppercase `X` is accepted — the Complete-phase scan is not
case-insensitive. -/
theorem C3_lowercase_complete_counterexample :
    decode_trace ⟨[mkEv (some "x") (some "Source") (some 0) (some 2000) (some 0) none
        (some "a.h") none]⟩ = [] ∧
    decode_trace ⟨[mkEv (some "X") (some "Source") (some 0) (some 2000) (some 0) none
        (some "a.h") none]⟩ = [("a.h", 2)] := by
  refine ⟨?_, ?_⟩ <;> with_unfolding_all decide

/-- Claim C3 as amended: phase-letter matching is case-insensitive only for
the begin/end phases (`B`/`b` and `E`/`e` are treated alike), while the
Complete-phase scan accepts exactly the uppercase letter `X`: any event whose
phase is lowercase `x` contributes nothing, the same event with `X` is
accepted, and a lowercase begin/end pair decodes identically to the uppercase
pair. -/
theorem C3_phase_case_sensitivity (ev : TraceEvent) (s : String) (d ts1 ts2 t : Int)
    (hx : ev.ph = some "x") (hs : s ≠ "") (hd : 0 ≤ d) :
    decode_trace ⟨[ev]⟩ = [] ∧
    decode_trace ⟨[mkEv (some "X") (some "Source") (some 0) (some d) (some 0) none
        (some s) none]⟩ = [(s, ((d : Int) : ℚ) / 1000)] ∧
    decode_trace ⟨[mkEv (some "b") (some "Source") (some ts1) none (some t) none
        (some s) none,
      mkEv (some "e") (some "Source") (some ts2) none (some t) none none none]⟩ =
    decode_trace ⟨[mkEv (some "B") (some "Source") (some ts1) none (some t) none
        (some s) none,
      mkEv (some "E") (some "Source") (some ts2) none (some t) none none none]⟩ := by
  have hd' : (0 : ℚ) ≤ ((d : Int) : ℚ) / 1000 := by positivity
  refine ⟨?_, ?_, ?_⟩
  · simp [decode_trace, completeStep, beginEndStep, isBeginPh, isEndPh, hx]
  · simp [decode_trace, completeStep, beginEndStep, resolveSubject, truthy, isBeginPh,
      isEndPh, mkEv, setKey, lookupD, PARSE_EVENT_NAMES, hs, pymax_eq_max]
    exact hd'
  · simp [decode_trace, completeStep, beginEndStep, resolveSubject, truthy, isBeginPh,
      isEndPh, mkEv, setKey, lookupD, getStack, setStack, hs, pymax_eq_max]

/-- Witness for the amended C3 at a concrete lowercase-`x` event, subject and
duration. -/
theorem C3_phase_case_sensitivity_witness :
    decode_trace ⟨[mkEv (some "x") (some "Source") (some 0) (some 3000) (some 0) none
        (some "b.h") none]⟩ = [] ∧
    decode_trace ⟨[mkEv (some "X") (some "Source") (some 0) (some 3000) (some 0) none
        (some "b.h") none]⟩ = [("b.h", ((3000 : Int) : ℚ) / 1000)] ∧
    decode_trace ⟨[mkEv (some "b") (some "Source") (some 10) none (some 0) none
        (some "b.h") none,
      mkEv (some "e") (some "Source") (some 20) none (some 0) none none none]⟩ =
    decode_trace ⟨[mkEv (some "B") (some "Source") (some 10) none (some 0) none
        (some "b.h") none,
      mkEv (some "E") (some "Source") (some 20) none (some 0) none none none]⟩ :=
  C3_phase_case_sensitivity
    (mkEv (some "x") (some "Source") (some 0) (some 3000) (some 0) none (some "b.h") none)
    "b.h" 3000 10 20 0 rfl (by decide) (by decide)

/-- Claim C4: the full pipeline on two trace files, each with one Complete
`Source` event for `inc/a.h` (`dur` 2000 µs and 4000 µs), queried for subject
`inc/a.h`, yields total 6 ms, average 3 ms, max 4 ms, count 2, and sample
variance 2 — the code's stored standard deviation is `math.sqrt` of that
variance, i.e. √2 ms. -/
theorem C4_pipeline_example :
    analyze_parse_times ["inc/a.h"] [some docA, some docB] =
      Except.ok [("inc/a.h", ⟨6, 3, 4, 2, 2⟩)] ∧
    Real.sqrt (((⟨6, 3, 4, 2, 2⟩ : HeaderMetrics).std_dev_sq : ℚ) : ℝ) =
      Real.sqrt 2 := by
  refine ⟨?_, ?_⟩
  · with_unfolding_all rfl
  · norm_num

/-- Claim C5: a subject observed in one document both via an accepted
Complete event (duration `d` µs) and via a begin/end pair
(`ts2 − ts1` µs) gets the larger of the two millisecond durations —
merge-by-max across the two decoding schemes. -/
theorem C5_merge_by_max (s : String) (d ts1 ts2 : Int) (hs : s ≠ "") (hd : 0 ≤ d) :
    decode_trace ⟨[mkEv (some "X") (some "Source") (some 0) (some d) (some 0) none
        (some s) none,
      mkEv (some "B") (some "Source") (some ts1) none (some 0) none (some s) none,
      mkEv (some "E") (some "Source") (some ts2) none (some 0) none none none]⟩ =
      [(s, max (((d : Int) : ℚ) / 1000)
        ((((ts2 : Int) : ℚ) - ((ts1 : Int) : ℚ)) / 1000))] := by
  have hd' : (0 : ℚ) ≤ ((d : Int) : ℚ) / 1000 := by positivity
  simp [decode_trace, completeStep, beginEndStep, resolveSubject, truthy, isBeginPh,
    isEndPh, mkEv, setKey, lookupD, getStack, setStack, PARSE_EVENT_NAMES, hs,
    pymax_eq_max]
  rw [max_eq_right hd']

/-- Witness for C5 at a concrete subject and durations (2 ms via the Complete
event, 4 ms via the begin/end pair). -/
theorem C5_merge_by_max_witness :
    decode_trace ⟨[mkEv (some "X") (some "Source") (some 0) (some 2000) (some 0) none
        (some "a.h") none,
      mkEv (some "B") (some "Source") (some 100) none (some 0) none (some "a.h") none,
      mkEv (some "E") (some "Source") (some 4100) none (some 0) none none none]⟩ =
      [("a.h", max (((2000 : Int) : ℚ) / 1000)
        ((((4100 : Int) : ℚ) - ((100 : Int) : ℚ)) / 1000))] :=
  C5_merge_by_max "a.h" 2000 100 4100 (by decide) (by decide)

/-- Claim C6: the summarizer's sample variance uses the `n − 1` divisor when
the sample count is at least 2 (stated multiplicatively:
`variance · (n − 1)` equals the sum of squared deviations from the mean), and
is exactly 0 — hence standard deviation exactly 0 — when the count is at
most 1. -/
theorem C6_sample_std_dev (times : List ℚ) :
    (times.length ≤ 1 → (metricsOf times).std_dev_sq = 0 ∧
      Real.sqrt (((metricsOf times).std_dev_sq : ℚ) : ℝ) = 0) ∧
    (2 ≤ times.length →
      (metricsOf times).std_dev_sq * ((times.length : ℚ) - 1) =
        (times.map (fun x => (x - (metricsOf times).avg_time) ^ 2)).sum) := by
  constructor
  · intro h
    have hn : ¬ 1 < times.length := by omega
    have h0 : (metricsOf times).std_dev_sq = 0 := by simp [metricsOf, hn]
    refine ⟨h0, ?_⟩
    rw [h0]
    simp
  · intro h
    have hn : 1 < times.length := by omega
    have hne : ((times.length : ℚ) - 1) ≠ 0 := by
      have h2 : (2 : ℚ) ≤ (times.length : ℚ) := by exact_mod_cast h
      intro hc
      rw [sub_eq_zero] at hc
      rw [hc] at h2
      norm_num at h2
    simp only [metricsOf, hn, if_true]
    rw [div_mul_cancel₀ _ hne]

/-- Witness for C6: a one-sample list has variance (and standard deviation)
exactly 0, and a two-sample list satisfies the `n − 1` divisor identity. -/
theorem C6_sample_std_dev_witness :
    ((metricsOf [(5 : ℚ)]).std_dev_sq = 0 ∧
      Real.sqrt (((metricsOf [(5 : ℚ)]).std_dev_sq : ℚ) : ℝ) = 0) ∧
    (metricsOf [(1 : ℚ), 3]).std_dev_sq * ((([(1 : ℚ), 3].length : ℕ) : ℚ) - 1) =
      ([(1 : ℚ), 3].map
        (fun x => (x - (metricsOf [(1 : ℚ), 3]).avg_time) ^ 2)).sum :=
  ⟨(C6_sample_std_dev [(5 : ℚ)]).1 (by decide),
    (C6_sample_std_dev [(1 : ℚ), 3]).2 (by decide)⟩

/-- Claim C7: one aggregation step appends the decoded duration exactly when
some requested identifier occurs as a substring of the raw subject
identifier, the append goes to the list stored under the raw identifier
itself, and in particular requested subject `a.h` matches raw path
`/proj/inc/a.h` and aggregates it under key `/proj/inc/a.h`, not under the
pattern. -/
theorem C7_aggregator_substring_filter (headers : List String)
    (durs : List (String × List ℚ)) (h : String) (d : ℚ) :
    aggStep headers durs (h, d) =
      (if ∃ pattern ∈ headers, substrOf pattern h = true then appendDur durs h d
       else durs) ∧
    lookupDurs (appendDur durs h d) h = lookupDurs durs h ++ [d] ∧
    aggStep ["a.h"] [] ("/proj/inc/a.h", d) = [("/proj/inc/a.h", [d])] := by
  refine ⟨?_, ?_, ?_⟩
  · simp only [aggStep, List.any_eq_true]
  · induction durs with
    | nil => simp [appendDur, lookupDurs]
    | cons p rest ih =>
      by_cases hp : p.1 = h
      · simp [appendDur, lookupDurs, hp]
      · simp [appendDur, lookupDurs, hp, ih]
  · have hsub : (["a.h"] : List String).any
        (fun pattern => substrOf pattern "/proj/inc/a.h") = true := by
      with_unfolding_all decide
    simp [aggStep, hsub, appendDur]
